import Mathlib

/-!
Shallow embedding of the avilist-py checklist library
(`src/avilist/aliases.py`, `src/avilist/schemas.py`, `src/avilist/avilist.py`)
and proofs about the claims of its specification.

Conventions of the embedding:
* Python strings are modeled over their character lists (`String` / `List Char`),
  in an ASCII model of the character classes used by the code
  (`str.lower`, `\W` in regexes, `str.strip`).
* A Python value that may be `None`/`NaN` is an `Option`.
* Code that can raise an uncaught exception returns `Except Unit`.
* pandas column operations are modeled cell-wise; `NA` entries of a string
  column are `none`, and boolean masks index with `NA` counting as `False`.
-/

namespace AviListPy

/-! ### Python string primitives -/

/-- Model of Python `str.strip` with a character class `p`:
remove matching characters from both ends. -/
def stripEnds (p : Char → Bool) (l : List Char) : List Char :=
  ((l.dropWhile p).reverse.dropWhile p).reverse

/-- Python `str.lower()` on the ASCII fragment (`Char.toLower` maps only
basic latin letters, as the checklist data uses). -/
def lowerStr (s : String) : String := ⟨s.data.map Char.toLower⟩

/-- Python `s.split(sep, 1)` for a one-character separator: split at the
first occurrence of `sep` into two parts, or return `[s]` when absent. -/
def splitOnceList (sep : Char) (l : List Char) : List (List Char) :=
  if sep ∈ l then
    [l.takeWhile (fun c => c != sep), (l.dropWhile (fun c => c != sep)).tail]
  else [l]

/-- Python `s.rsplit(sep, 1)` for a one-character separator: split at the
last occurrence of `sep` into two parts, or return `[s]` when absent. -/
def rsplitOnceList (sep : Char) (l : List Char) : List (List Char) :=
  if sep ∈ l then
    [((l.reverse.dropWhile (fun c => c != sep)).tail).reverse,
     (l.reverse.takeWhile (fun c => c != sep)).reverse]
  else [l]

/-- Helper of `pyDigitsVal`: digit run with single underscores permitted
strictly between digits, accumulating the decimal value. -/
def pyDigitsGo (acc : Nat) : List Char → Option Nat
  | [] => some acc
  | c :: rest =>
    if c.isDigit then pyDigitsGo (acc * 10 + (c.toNat - 48)) rest
    else if c = '_' then
      match rest with
      | [] => none
      | d :: rest2 =>
        if d.isDigit then pyDigitsGo ((acc * 10 + (d.toNat - 48))) rest2 else none
    else none

/-- Value of a nonempty digit run (first character must be a digit). -/
def pyDigitsVal : List Char → Option Nat
  | [] => none
  | c :: rest => if c.isDigit then pyDigitsGo (c.toNat - 48) rest else none

/-- Model of Python `int(s)` on a decimal string: surrounding whitespace is
ignored, an optional sign precedes the digits; `none` models the raised
`ValueError` for anything else. -/
def pythonInt (l : List Char) : Option Int :=
  let t := stripEnds Char.isWhitespace l
  match t with
  | '+' :: rest => (pyDigitsVal rest).map (fun n => (n : Int))
  | '-' :: rest => (pyDigitsVal rest).map (fun n => -(n : Int))
  | _ => (pyDigitsVal t).map (fun n => (n : Int))

/-! ### `aliases.py`: `parse_authority` -/

/-- Shallow embedding of `parse_authority` (`src/avilist/aliases.py`).
A `none` input models Python `None` or a non-string value (the
`not isinstance(s, str)` guard); `Except.error ()` models the uncaught
`ValueError` raised by `int(year_str)`; `Except.ok none` is the lenient
"absent authority" result. -/
def parse_authority (s : Option String) : Except Unit (Option (String × String × Int)) :=
  match s with
  | none => Except.ok none
  | some s =>
    if s.data.isEmpty then Except.ok none
    else
      let clean_s := stripEnds (fun c => c == '(' || c == ')') s.data
      let parts := (rsplitOnceList ',' clean_s).map (stripEnds Char.isWhitespace)
      if parts.length < 2 then Except.ok none
      else
        let name_part := parts.getD 0 []
        let year_str := parts.getD 1 []
        let name_split := (splitOnceList ',' name_part).map (stripEnds Char.isWhitespace)
        let last_name := if ',' ∈ name_part then name_split.getD 0 [] else name_part
        let initials : List Char :=
          if ',' ∈ name_part then
            (if 1 < name_split.length then name_split.getD 1 [] else [])
          else []
        match pythonInt year_str with
        | some y => Except.ok (some (⟨last_name⟩, ⟨initials⟩, y))
        | none => Except.error ()

/-- Stripping of a single pair of surrounding parentheses, as the spec's
authority algorithm words it ("strip a single pair of surrounding
parentheses if present"). Used only to compare against the code. -/
def stripOnePair (l : List Char) : List Char :=
  match l with
  | '(' :: rest => if rest.getLast? = some ')' then rest.dropLast else '(' :: rest
  | _ => l

/-- The authority-parsing algorithm exactly as the spec words it (§4.2),
differing from the code only in the parenthesis-stripping step: the spec
strips a single surrounding pair where the code strips every leading and
trailing parenthesis character. -/
def parseAuthoritySpec (s : Option String) : Except Unit (Option (String × String × Int)) :=
  match s with
  | none => Except.ok none
  | some s =>
    if s.data.isEmpty then Except.ok none
    else
      let clean_s := stripOnePair s.data
      let parts := (rsplitOnceList ',' clean_s).map (stripEnds Char.isWhitespace)
      if parts.length < 2 then Except.ok none
      else
        let name_part := parts.getD 0 []
        let year_str := parts.getD 1 []
        let name_split := (splitOnceList ',' name_part).map (stripEnds Char.isWhitespace)
        let last_name := if ',' ∈ name_part then name_split.getD 0 [] else name_part
        let initials : List Char :=
          if ',' ∈ name_part then
            (if 1 < name_split.length then name_split.getD 1 [] else [])
          else []
        match pythonInt year_str with
        | some y => Except.ok (some (⟨last_name⟩, ⟨initials⟩, y))
        | none => Except.error ()

/-- The spec's authority algorithm amended in its parenthesis-stripping step:
strip every leading and trailing parenthesis character (not just one
surrounding pair). This is the amendment claim C5 is corrected to. -/
def parseAuthoritySpecAmended (s : Option String) :
    Except Unit (Option (String × String × Int)) :=
  match s with
  | none => Except.ok none
  | some s =>
    if s.data.isEmpty then Except.ok none
    else
      let clean_s := stripEnds (fun c => c == '(' || c == ')') s.data
      let parts := (rsplitOnceList ',' clean_s).map (stripEnds Char.isWhitespace)
      if parts.length < 2 then Except.ok none
      else
        let name_part := parts.getD 0 []
        let year_str := parts.getD 1 []
        let name_split := (splitOnceList ',' name_part).map (stripEnds Char.isWhitespace)
        let last_name := if ',' ∈ name_part then name_split.getD 0 [] else name_part
        let initials : List Char :=
          if ',' ∈ name_part then
            (if 1 < name_split.length then name_split.getD 1 [] else [])
          else []
        match pythonInt year_str with
        | some y => Except.ok (some (⟨last_name⟩, ⟨initials⟩, y))
        | none => Except.error ()






/-! ### `avilist.py`: column-name canonicalization (`AviList._process_raw_df`) -/

/-- One pass of the regex substitution `re.sub(r'[\W_]+', '_', s)` in the
ASCII model: each maximal run of non-alphanumeric characters collapses to a
single underscore. `inRun` records whether the previous character was part
of a run that has already produced its underscore. -/
def collapseGo (inRun : Bool) : List Char → List Char
  | [] => []
  | c :: cs =>
    if c.isAlphanum then c :: collapseGo false cs
    else if inRun then collapseGo true cs
    else '_' :: collapseGo true cs

/-- Column canonicalization from `AviList._process_raw_df`:
`re.sub(r'[\W_]+', '_', col.strip().lower()).strip('_')`. -/
def canonList (l : List Char) : List Char :=
  stripEnds (fun c => c == '_')
    (collapseGo false ((stripEnds Char.isWhitespace l).map Char.toLower))

/-- String-level wrapper of `canonList`. -/
def canonCol (s : String) : String := ⟨canonList s.data⟩


/-! ### `avilist.py`: boolean-column coercion for `extinct_or_possibly_extinct` -/

/-- A cell of the raw table: a string, a bool, an integer, or missing (`NaN`). -/
inductive Cell where
  | str (v : String)
  | boolv (v : Bool)
  | intv (v : Int)
  | na
deriving DecidableEq

/-- `df[col].map({'Yes': True, 'No': False})`: dictionary lookup per cell,
keys not present map to `NaN`. -/
def mapYesNo (c : Cell) : Cell :=
  if c = Cell.str "Yes" then Cell.boolv true
  else if c = Cell.str "No" then Cell.boolv false
  else Cell.na

/-- `.fillna(False)` per cell. -/
def fillnaFalse (c : Cell) : Cell :=
  if c = Cell.na then Cell.boolv false else c

/-- The boolean-dtype branch of `_process_raw_df` for the single boolean
column `extinct_or_possibly_extinct`:
`df[col].map({'Yes': True, 'No': False}).fillna(False)`. -/
def coerceExtinct (c : Cell) : Cell := fillnaFalse (mapYesNo c)

/-! ### `avilist.py`: the `binomial_helper` column -/

/-- Helper of `pySplitWs`: whitespace-run split, accumulating the current
token in reverse; empty tokens are discarded (Python `str.split()`). -/
def splitWsGo (cur : List Char) : List Char → List (List Char)
  | [] => if cur.isEmpty then [] else [cur.reverse]
  | c :: cs =>
    if c.isWhitespace then
      if cur.isEmpty then splitWsGo [] cs
      else cur.reverse :: splitWsGo [] cs
    else splitWsGo (c :: cur) cs

/-- Python `str.split()` with no argument: split on whitespace runs,
no empty tokens. -/
def pySplitWs (s : String) : List String := (splitWsGo [] s.data).map (fun t => ⟨t⟩)

/-- Per-cell model of the pandas pipeline assigning `binomial_helper` in
`_process_raw_df`:
`df['scientific_name'].str.split().str[:2].str.join(' ').str.lower()`.
An `NA` scientific name propagates to an `NA` helper. -/
def binomialHelperCell (v : Option String) : Option String :=
  v.map (fun s => lowerStr (String.intercalate " " ((pySplitWs s).take 2)))


/-! ### `schemas.py`: derived properties of `AviListLeanRecord` -/

/-- Helper of `pySplitChar`: split at every occurrence of `sep`, keeping
empty tokens; the result is never empty. -/
def splitCharGo (sep : Char) (cur : List Char) : List Char → List (List Char)
  | [] => [cur.reverse]
  | c :: cs =>
    if c == sep then cur.reverse :: splitCharGo sep [] cs
    else splitCharGo sep (c :: cur) cs

/-- Python `s.split(sep)` for a one-character separator (keeps empty
tokens; `"".split(' ') = ['']`). -/
def pySplitChar (sep : Char) (s : String) : List String :=
  (splitCharGo sep [] s.data).map (fun t => ⟨t⟩)

/-- `AviListLeanRecord.epithet`: `self.scientific_name.split(' ')[1]`.
`Except.error ()` models the uncaught `IndexError` when the split has
fewer than two elements. -/
def epithetProp (scientific_name : String) : Except Unit String :=
  match (pySplitChar ' ' scientific_name)[1]? with
  | some t => Except.ok t
  | none => Except.error ()

/-- `AviListLeanRecord.subspecies`:
`try: return self.scientific_name.split(' ')[-1] except IndexError: return None`.
The `[-1]` index raises `IndexError` exactly when the split is empty, in
which case the property degrades to `None` (modeled by `getLast?`). -/
def subspeciesProp (scientific_name : String) : Option String :=
  (pySplitChar ' ' scientific_name).getLast?


/-! ### `avilist.py`: query engine (`_build_query_set` and `find`) -/

/-- A normalized table row, restricted to the columns `_build_query_set`
reads. All are string-dtype columns whose cells may be `NA` (`none`). -/
structure Row where
  scientific_name : Option String := none
  taxon_rank : Option String := none
  english_name_avilist : Option String := none
  english_name_clements_v2024 : Option String := none
  english_name_birdlife_v9 : Option String := none
  order : Option String := none
  family : Option String := none
  family_english_name : Option String := none
  species_range : Option String := none
deriving DecidableEq

/-- The keyword arguments of `find` that `_build_query_set` consumes
(`AviListQuery` in `schemas.py`); absent keys are `none`. -/
structure QueryArgs where
  genus : Option String := none
  epithet : Option String := none
  subspecies : Option String := none
  common_name : Option String := none
  order : Option String := none
  family : Option String := none
  family_english_name : Option String := none
  species_range : Option String := none
deriving DecidableEq

/-- `series.str.lower() == value.lower()` as a row mask: an `NA` cell
compares to `NA`, which boolean indexing treats as `False`. -/
def eqLowerMask (col : Option String) (v : String) : Bool :=
  match col with
  | some s => lowerStr s == lowerStr v
  | none => false

/-- `series.str.lower().str.startswith(value.lower())` as a row mask
(`NA` excluded). -/
def startsLowerMask (col : Option String) (v : String) : Bool :=
  match col with
  | some s => (lowerStr v).data.isPrefixOf (lowerStr s).data
  | none => false

/-- Substring containment over char lists (pandas `str.contains` with a
literal pattern; regex metacharacters of the query string are not modeled,
the queries proved about contain none). -/
def containsSub (needle : List Char) : List Char → Bool
  | [] => needle.isEmpty
  | c :: rest => needle.isPrefixOf (c :: rest) || containsSub needle rest

/-- `series.str.lower().str.contains(value.lower())` as a row mask
(`NA` excluded). -/
def containsLowerMask (col : Option String) (v : String) : Bool :=
  match col with
  | some s => containsSub (lowerStr v).data (lowerStr s).data
  | none => false

/-- `df['species_range'].fillna('').str.contains(value, case=False)`:
an `NA` range counts as the empty string; matching is case-insensitive. -/
def rangeMask (col : Option String) (v : String) : Bool :=
  containsSub (lowerStr v).data (lowerStr (col.getD "")).data

/-- The walrus guard `if value := kwargs.get(key):` — the filter applies
only when the argument is present AND truthy (a nonempty string). -/
def applyTruthy (arg : Option String) (mask : String → Row → Bool)
    (df : List Row) : List Row :=
  match arg with
  | some v => if v == "" then df else df.filter (mask v)
  | none => df

/-- The guard `if (v := kwargs.get(key)) is not None:` used for the direct
mappings — the filter applies whenever the argument is present, even `""`. -/
def applyIfSome (arg : Option String) (mask : String → Row → Bool)
    (df : List Row) : List Row :=
  match arg with
  | some v => df.filter (mask v)
  | none => df

/-- `AviListExtended._build_query_set` applied to the loaded table: the
successive narrowing filters, in source order. The subspecies step is the
single filter `df[mask1 & mask2]`; the common-name step ORs the three
common-name columns. -/
def buildQuerySetExtended (df : List Row) (q : QueryArgs) : List Row :=
  let df1 := applyTruthy q.genus (fun g r => startsLowerMask r.scientific_name g) df
  let df2 := applyTruthy q.epithet (fun e r => containsLowerMask r.scientific_name e) df1
  let df3 := applyTruthy q.subspecies
    (fun v r => containsLowerMask r.scientific_name v &&
      eqLowerMask r.taxon_rank "subspecies") df2
  let df4 := applyTruthy q.common_name
    (fun x r => eqLowerMask r.english_name_avilist x ||
      eqLowerMask r.english_name_clements_v2024 x ||
      eqLowerMask r.english_name_birdlife_v9 x) df3
  let df5 := applyIfSome q.order (fun v r => eqLowerMask r.order v) df4
  let df6 := applyIfSome q.family (fun v r => eqLowerMask r.family v) df5
  let df7 := applyIfSome q.family_english_name
    (fun v r => eqLowerMask r.family_english_name v) df6
  applyTruthy q.species_range (fun v r => rangeMask r.species_range v) df7

/-- `AviListShort._build_query_set`: identical to the extended variant
except that the common-name step reads only `english_name_avilist`. -/
def buildQuerySetShort (df : List Row) (q : QueryArgs) : List Row :=
  let df1 := applyTruthy q.genus (fun g r => startsLowerMask r.scientific_name g) df
  let df2 := applyTruthy q.epithet (fun e r => containsLowerMask r.scientific_name e) df1
  let df3 := applyTruthy q.subspecies
    (fun v r => containsLowerMask r.scientific_name v &&
      eqLowerMask r.taxon_rank "subspecies") df2
  let df4 := applyTruthy q.common_name
    (fun x r => eqLowerMask r.english_name_avilist x) df3
  let df5 := applyIfSome q.order (fun v r => eqLowerMask r.order v) df4
  let df6 := applyIfSome q.family (fun v r => eqLowerMask r.family v) df5
  let df7 := applyIfSome q.family_english_name
    (fun v r => eqLowerMask r.family_english_name v) df6
  applyTruthy q.species_range (fun v r => rangeMask r.species_range v) df7

/-- Python `records[:k]` for an integer `k` (a negative `k` indexes from
the end; `len + k` clamps at zero). -/
def pySliceTo (k : Int) (l : List α) : List α :=
  if 0 ≤ k then l.take k.toNat else l.take ((l.length : Int) + k).toNat

/-- Row selection of `AviListExtended.find`: `records = df.to_dict('records')`
in table order, then `if limit: records = records[:limit]` — the slice is
skipped when `limit` is `None` or `0` (falsy). Per-row validation happens
lazily on yield and does not change which rows are selected. -/
def findRecordsExtended (df : List Row) (q : QueryArgs) (limit : Option Int) : List Row :=
  let records := buildQuerySetExtended df q
  match limit with
  | none => records
  | some n => if n == 0 then records else pySliceTo n records

/-- Row selection of `AviListShort.find`, same shape as the extended one. -/
def findRecordsShort (df : List Row) (q : QueryArgs) (limit : Option Int) : List Row :=
  let records := buildQuerySetShort df q
  match limit with
  | none => records
  | some n => if n == 0 then records else pySliceTo n records

/-! ### `avilist.py`: checklist lifecycle and `enrich_species_list` -/

/-- The mutable state of a checklist object: `_df` is `None` until loaded. -/
structure ChecklistState where
  df : Option (List Row)
deriving DecidableEq

/-- One element of the `records` argument of `enrich_species_list`
(the code reads keys `scientific_name` and `threshold`; the float
threshold is modeled as a rational). -/
structure EnrichInput where
  scientific_name : String
  threshold : Rat
deriving DecidableEq

/-- `pd.merge(input_df, self._df, on='scientific_name', how='inner')`:
for each input row in order, every table row whose `scientific_name`
equals the input key (an `NA` key never matches). -/
def enrichMerge (inputs : List EnrichInput) (df : List Row) :
    List (EnrichInput × Row) :=
  inputs.flatMap (fun i =>
    (df.filter (fun r => r.scientific_name == some i.scientific_name)).map
      (fun r => (i, r)))

/-- Insertion step of the descending sort on `probability`. -/
def insertByProb (x : EnrichInput × Row) :
    List (EnrichInput × Row) → List (EnrichInput × Row)
  | [] => [x]
  | y :: ys =>
    if y.1.threshold ≤ x.1.threshold then x :: y :: ys else y :: insertByProb x ys

/-- `merged_df.sort_values(by='probability', ascending=False)` (the order
among equal probabilities is not specified by the code's sort kind). -/
def sortByProbDesc (l : List (EnrichInput × Row)) : List (EnrichInput × Row) :=
  l.foldr insertByProb []

/-- `AviListExtended.enrich_species_list` together with its
`@ensure_loaded` decorator. `producer` is the bound `_df_promise`.
Returns the state after the call, whether the decorator's auto-load
warning fired, and the result (`Except.error ()` models the
`RuntimeError('DataFrame not loaded; ...')`). The decorator runs first:
if `_df is None` it warns and invokes `.load()`, so the inner
`RuntimeError` guard only sees the already-loaded state. -/
def enrich_species_list (producer : List Row) (st : ChecklistState)
    (records : List EnrichInput) :
    ChecklistState × Bool × Except Unit (List (EnrichInput × Row)) :=
  let loaded : ChecklistState × Bool :=
    match st.df with
    | none => (⟨some producer⟩, true)
    | some _ => (st, false)
  let res : Except Unit (List (EnrichInput × Row)) :=
    match loaded.1.df with
    | none => Except.error ()
    | some df =>
      if records.isEmpty then Except.ok []
      else Except.ok (sortByProbDesc (enrichMerge records df))
  (loaded.1, loaded.2, res)

/-! ### Sample data for concrete checks -/

/-- The query with no criteria supplied. -/
def emptyQuery : QueryArgs := ⟨none, none, none, none, none, none, none, none⟩

/-- A query supplying only `common_name`. -/
def cnQuery (x : String) : QueryArgs := ⟨none, none, none, some x, none, none, none, none⟩

/-- A sample normalized table row. -/
def rowCrow : Row :=
  ⟨some "Corvus corone", some "species", some "Carrion Crow", some "Carrion Crow",
   some "Carrion Crow", some "Passeriformes", some "Corvidae", some "Crows, Jays",
   some "W Europe"⟩

/-- A sample enrich input. -/
def crowInput : EnrichInput := ⟨"Corvus corone", (9 : Rat) / 10⟩

/-! ### Helper lemmas -/

theorem string_ne_empty_data {s : String} (h : s ≠ "") : s.data.isEmpty = false := by
  cases s with
  | mk data =>
    cases data with
    | nil => exact absurd rfl h
    | cons c cs => rfl

theorem splitCharGo_ne_nil (sep : Char) (cur : List Char) (l : List Char) :
    splitCharGo sep cur l ≠ [] := by
  induction l generalizing cur with
  | nil => simp [splitCharGo]
  | cons c cs ih =>
    rw [splitCharGo]
    by_cases h : (c == sep) = true
    · simp [h]
    · simp only [h, if_false]
      exact ih _

theorem splitCharGo_length (sep : Char) (cur : List Char) (l : List Char) :
    (splitCharGo sep cur l).length = l.count sep + 1 := by
  induction l generalizing cur with
  | nil => simp [splitCharGo]
  | cons c cs ih =>
    rw [splitCharGo]
    by_cases h : (c == sep) = true
    · have hc : c = sep := by simpa using h
      simp [h, ih, List.count_cons, hc]
    · have hc : ¬ c = sep := by simpa using h
      simp [h, ih, List.count_cons, hc]

theorem pySplitChar_ne_nil (sep : Char) (s : String) : pySplitChar sep s ≠ [] := by
  unfold pySplitChar
  intro h
  exact splitCharGo_ne_nil sep [] s.data (List.map_eq_nil_iff.mp h)

theorem pySplitChar_length (sep : Char) (s : String) :
    (pySplitChar sep s).length = s.data.count sep + 1 := by
  unfold pySplitChar
  rw [List.length_map]
  exact splitCharGo_length sep [] s.data

/-! ### Claim theorems -/

/-- C1: code behavior at the claim's failing input. Calling
`enrich_species_list` on an UNLOADED extended checklist does not fail
fatally: the `@ensure_loaded` decorator warns and auto-loads first, so the
call returns a normal result and the state ends up loaded — the inner
`RuntimeError('DataFrame not loaded; Call .load() ...')` guard is dead
code. This contradicts the claim (and the code's own error message), which
say the enrich path must fail fatally without auto-loading. -/
theorem claim_C1_enrich_autoloads (producer : List Row) (records : List EnrichInput) :
    enrich_species_list producer ⟨none⟩ records =
      (⟨some producer⟩, true,
        Except.ok (if records.isEmpty then []
          else sortByProbDesc (enrichMerge records producer))) := by
  unfold enrich_species_list
  by_cases h : records.isEmpty <;> simp [h]

/-- C2 counterexample: `scientific_name = "Corvus"` has fewer than two
whitespace tokens, yet the normalized `binomial_helper` is `some "corvus"`
(the lowercased single token), not the absent value the claim states. -/
theorem claim_C2_counterexample :
    (pySplitWs "Corvus").length < 2 ∧
      binomialHelperCell (some "Corvus") = some "corvus" ∧
      binomialHelperCell (some "Corvus") ≠ none := by
  refine ⟨by decide, rfl, by decide⟩

/-- C2 amended: for every row, `binomial_helper` equals the lowercased
single-space join of the first (up to) two whitespace tokens of
`scientific_name`: with at least two tokens that is the lowercase
"genus epithet"; with fewer than two tokens the helper is NOT absent but
the lowercased join of the tokens present (e.g. the single lowercased
token, or `""` for a tokenless name); only a null `scientific_name`
yields a null helper. -/
theorem claim_C2_amended :
    binomialHelperCell none = none ∧
    (∀ s t1 t2 rest, pySplitWs s = t1 :: t2 :: rest →
      binomialHelperCell (some s) =
        some (lowerStr (String.intercalate " " [t1, t2]))) ∧
    (∀ s, binomialHelperCell (some s) =
      some (lowerStr (String.intercalate " " ((pySplitWs s).take 2)))) := by
  refine ⟨rfl, ?_, fun s => rfl⟩
  intro s t1 t2 rest h
  simp [binomialHelperCell, h]

/-- C2 witness: the amended statement evaluated on a concrete trinomial. -/
theorem claim_C2_witness :
    binomialHelperCell (some "Corvus corone orientalis") =
      some (lowerStr (String.intercalate " " ["Corvus", "corone"])) :=
  claim_C2_amended.2.1 "Corvus corone orientalis" "Corvus" "corone" ["orientalis"] rfl

/-- C3 counterexample: the malformed citation "Linnaeus, MDCCLVIII" has a
year segment that is not an integer, and `int(year_str)` raises an
uncaught `ValueError` — authority parsing does not degrade every
malformed citation to an absent value. -/
theorem claim_C3_counterexample :
    parse_authority (some "Linnaeus, MDCCLVIII") = Except.error () := rfl

/-- C3 amended: authority parsing is lenient — absent value, no error —
for inputs that are `None`/non-text, empty, or that lack a comma after
parenthesis-stripping (the failed comma-split); but a citation whose
year segment does not parse as an integer raises `ValueError` instead of
degrading. -/
theorem claim_C3_amended :
    parse_authority none = Except.ok none ∧
    parse_authority (some "") = Except.ok none ∧
    (∀ s : String, s ≠ "" →
      ¬ ',' ∈ stripEnds (fun c => c == '(' || c == ')') s.data →
      parse_authority (some s) = Except.ok none) ∧
    parse_authority (some "Linnaeus, MDCCLVIII") = Except.error () := by
  refine ⟨rfl, rfl, ?_, rfl⟩
  intro s hne hnc
  have hd := string_ne_empty_data hne
  unfold parse_authority
  simp only [hd, Bool.false_eq_true, if_false]
  rw [rsplitOnceList, if_neg hnc]
  simp

/-- C3 witness: the lenient no-comma branch evaluated concretely. -/
theorem claim_C3_witness :
    parse_authority (some "Linnaeus 1758") = Except.ok none :=
  claim_C3_amended.2.2.1 "Linnaeus 1758" (by decide) (by decide)

/-- C4 counterexample: for the two-token binomial "Corvus corone" (taxon
rank species) the claim says the subspecies property is absent, but the
code returns the last token, "corone". -/
theorem claim_C4_counterexample :
    subspeciesProp "Corvus corone" = some "corone" ∧
      subspeciesProp "Corvus corone" ≠ none := ⟨rfl, by decide⟩

/-- C4 amended: the derived subspecies property always returns the last
`split(' ')` chunk of `scientific_name` and is never absent — the
`except IndexError` branch is unreachable because `split(' ')` always
returns a nonempty list. In particular for a two-token binomial it
returns the epithet, not an absent value. -/
theorem claim_C4_amended (s : String) :
    subspeciesProp s ≠ none ∧
      subspeciesProp s = (pySplitChar ' ' s).getLast? ∧
      (∀ g e, pySplitChar ' ' s = [g, e] → subspeciesProp s = some e) := by
  refine ⟨?_, rfl, ?_⟩
  · unfold subspeciesProp
    rw [Ne, List.getLast?_eq_none_iff]
    exact pySplitChar_ne_nil ' ' s
  · intro g e h
    unfold subspeciesProp
    rw [h]
    rfl

/-- C4 witness: the amended statement evaluated on "Corvus corone". -/
theorem claim_C4_witness :
    subspeciesProp "Corvus corone" ≠ none ∧
      subspeciesProp "Corvus corone" = some "corone" :=
  ⟨(claim_C4_amended "Corvus corone").1,
   (claim_C4_amended "Corvus corone").2.2 "Corvus" "corone" rfl⟩

/-- C5 counterexample: on "((Linnaeus, 1758))" the code (`strip('()')`)
removes ALL surrounding parenthesis characters and succeeds with
("Linnaeus", "", 1758), while the spec's algorithm (strip a single pair)
leaves "(Linnaeus, 1758)", whose year segment "1758)" is not an integer
— the code does not follow the algorithm as specified. -/
theorem claim_C5_counterexample :
    parse_authority (some "((Linnaeus, 1758))") =
      Except.ok (some ("Linnaeus", "", 1758)) ∧
    parseAuthoritySpec (some "((Linnaeus, 1758))") = Except.error () ∧
    parse_authority (some "((Linnaeus, 1758))") ≠
      parseAuthoritySpec (some "((Linnaeus, 1758))") := by
  have h1 : parse_authority (some "((Linnaeus, 1758))") =
      Except.ok (some ("Linnaeus", "", 1758)) := rfl
  have h2 : parseAuthoritySpec (some "((Linnaeus, 1758))") = Except.error () := rfl
  refine ⟨h1, h2, ?_⟩
  rw [h1, h2]
  exact fun h => Except.noConfusion h

/-- C5 amended: authority parsing follows the specified algorithm with the
parenthesis step amended to "strip ALL leading and trailing parenthesis
characters" (Python `strip('()')`), not a single surrounding pair; the
spec's three examples hold as stated. -/
theorem claim_C5_amended :
    (∀ s, parse_authority s = parseAuthoritySpecAmended s) ∧
    parse_authority (some "(Linnaeus, 1758)") =
      Except.ok (some ("Linnaeus", "", 1758)) ∧
    parse_authority (some "Naumann, JA; Naumann, JF, 1900") =
      Except.ok (some ("Naumann", "JA; Naumann, JF", 1900)) ∧
    parse_authority (some "") = Except.ok none ∧
    parse_authority none = Except.ok none :=
  ⟨fun _ => rfl, rfl, rfl, rfl, rfl⟩

/-- C9: after normalization the `extinct_or_possibly_extinct` cell is a
boolean for every input cell — it equals `true` exactly on the textual
"Yes" and `false` on everything else ("No", any other string, booleans,
numbers, and missing values); in particular it is never `NA`. -/
theorem claim_C9_extinct_boolean (c : Cell) :
    coerceExtinct c = Cell.boolv (decide (c = Cell.str "Yes")) := by
  unfold coerceExtinct mapYesNo fillnaFalse
  by_cases h1 : c = Cell.str "Yes"
  · simp [h1]
  · by_cases h2 : c = Cell.str "No" <;> simp [h1, h2]

/-- C10: the derived epithet property is partial. When `scientific_name`
splits (on single spaces) into at least two tokens, it returns the second
token without error; when the name is a single token — equivalently,
contains no space — it raises `IndexError` instead of returning an
absent value. -/
theorem claim_C10_epithet_behavior (s : String) :
    (∀ t, (pySplitChar ' ' s)[1]? = some t → epithetProp s = Except.ok t) ∧
    ((pySplitChar ' ' s).length < 2 → epithetProp s = Except.error ()) ∧
    ((pySplitChar ' ' s).length < 2 ↔ ¬ ' ' ∈ s.data) := by
  refine ⟨?_, ?_, ?_⟩
  · intro t h
    unfold epithetProp
    rw [h]
  · intro h
    unfold epithetProp
    rw [List.getElem?_eq_none (by omega)]
  · rw [pySplitChar_length]
    constructor
    · intro h
      have : s.data.count ' ' = 0 := by omega
      exact (List.count_eq_zero.mp this)
    · intro h
      have : s.data.count ' ' = 0 := List.count_eq_zero.mpr h
      omega

/-- C10 witness: both branches evaluated concretely — a binomial yields
its epithet, a single-token name raises. -/
theorem claim_C10_witness :
    epithetProp "Corvus corone" = Except.ok "corone" ∧
      epithetProp "Corvus" = Except.error () :=
  ⟨(claim_C10_epithet_behavior "Corvus corone").1 "corone" rfl,
   (claim_C10_epithet_behavior "Corvus").2.1 (by decide)⟩

/-! ### Claims C7 and C8: the query engine -/

theorem applyTruthy_sublist (arg : Option String) (mask : String → Row → Bool)
    (df : List Row) : List.Sublist (applyTruthy arg mask df) df := by
  unfold applyTruthy
  cases arg with
  | none => exact List.Sublist.refl df
  | some v =>
    by_cases h : (v == "") = true
    · simp [h]
    · simp only [h, if_false]
      exact List.filter_sublist df

theorem applyIfSome_sublist (arg : Option String) (mask : String → Row → Bool)
    (df : List Row) : List.Sublist (applyIfSome arg mask df) df := by
  unfold applyIfSome
  cases arg with
  | none => exact List.Sublist.refl df
  | some v => exact List.filter_sublist df

theorem buildQuerySetExtended_sublist (df : List Row) (q : QueryArgs) :
    List.Sublist (buildQuerySetExtended df q) df := by
  unfold buildQuerySetExtended
  exact ((applyTruthy_sublist _ _ _).trans ((applyIfSome_sublist _ _ _).trans
    ((applyIfSome_sublist _ _ _).trans ((applyIfSome_sublist _ _ _).trans
    ((applyTruthy_sublist _ _ _).trans ((applyTruthy_sublist _ _ _).trans
    ((applyTruthy_sublist _ _ _).trans (applyTruthy_sublist _ _ _))))))))

theorem buildQuerySetShort_sublist (df : List Row) (q : QueryArgs) :
    List.Sublist (buildQuerySetShort df q) df := by
  unfold buildQuerySetShort
  exact ((applyTruthy_sublist _ _ _).trans ((applyIfSome_sublist _ _ _).trans
    ((applyIfSome_sublist _ _ _).trans ((applyIfSome_sublist _ _ _).trans
    ((applyTruthy_sublist _ _ _).trans ((applyTruthy_sublist _ _ _).trans
    ((applyTruthy_sublist _ _ _).trans (applyTruthy_sublist _ _ _))))))))

/-- C7 counterexample: with a one-row table and `limit=0` supplied, `find`
returns the whole surviving row list — `if limit:` treats 0 as falsy and
skips the slice — so the result has 1 record, not "at most 0". -/
theorem claim_C7_counterexample :
    findRecordsExtended [rowCrow] emptyQuery (some 0) = [rowCrow] ∧
      ¬ (findRecordsExtended [rowCrow] emptyQuery (some 0)).length ≤ 0 :=
  ⟨rfl, by decide⟩

/-- C7 amended: for every POSITIVE limit n, `find` returns exactly the
first n surviving rows in original table order (hence at most n), on both
variants; the surviving rows are a sublist of the table (no re-sorting).
A limit of 0 is falsy in the `if limit:` guard and returns all surviving
rows instead. -/
theorem claim_C7_amended (df : List Row) (q : QueryArgs) (n : Int) (h : 0 < n) :
    findRecordsExtended df q (some n) = (buildQuerySetExtended df q).take n.toNat ∧
    findRecordsShort df q (some n) = (buildQuerySetShort df q).take n.toNat ∧
    (findRecordsExtended df q (some n)).length ≤ n.toNat ∧
    (findRecordsShort df q (some n)).length ≤ n.toNat ∧
    List.Sublist (buildQuerySetExtended df q) df ∧
    List.Sublist (buildQuerySetShort df q) df := by
  have hne : (n == 0) = false := by
    rw [beq_eq_false_iff_ne]
    omega
  have hext : findRecordsExtended df q (some n) =
      (buildQuerySetExtended df q).take n.toNat := by
    unfold findRecordsExtended pySliceTo
    simp [hne, Int.le_of_lt h]
  have hsh : findRecordsShort df q (some n) =
      (buildQuerySetShort df q).take n.toNat := by
    unfold findRecordsShort pySliceTo
    simp [hne, Int.le_of_lt h]
  refine ⟨hext, hsh, ?_, ?_, buildQuerySetExtended_sublist df q,
    buildQuerySetShort_sublist df q⟩
  · rw [hext]; exact List.length_take_le _ _
  · rw [hsh]; exact List.length_take_le _ _

/-- C7 witness: the amended statement at table `[rowCrow]`, the empty
query and limit 1. -/
theorem claim_C7_witness :
    findRecordsExtended [rowCrow] emptyQuery (some 1) =
      (buildQuerySetExtended [rowCrow] emptyQuery).take (1 : Int).toNat ∧
    findRecordsShort [rowCrow] emptyQuery (some 1) =
      (buildQuerySetShort [rowCrow] emptyQuery).take (1 : Int).toNat ∧
    (findRecordsExtended [rowCrow] emptyQuery (some 1)).length ≤ (1 : Int).toNat ∧
    (findRecordsShort [rowCrow] emptyQuery (some 1)).length ≤ (1 : Int).toNat ∧
    List.Sublist (buildQuerySetExtended [rowCrow] emptyQuery) [rowCrow] ∧
    List.Sublist (buildQuerySetShort [rowCrow] emptyQuery) [rowCrow] :=
  claim_C7_amended [rowCrow] emptyQuery 1 (by decide)

/-- C8 counterexample: for the query string X = "" the walrus guard
`if common_name := kwargs.get('common_name'):` is falsy, so no filter
applies and `rowCrow` is returned even though none of its three
common-name columns equals "" — the claimed "if and only if" fails
at X = "". -/
theorem claim_C8_counterexample :
    rowCrow ∈ buildQuerySetExtended [rowCrow] (cnQuery "") ∧
      ¬ (eqLowerMask rowCrow.english_name_avilist "" = true ∨
         eqLowerMask rowCrow.english_name_clements_v2024 "" = true ∨
         eqLowerMask rowCrow.english_name_birdlife_v9 "" = true) := by
  decide

/-- C8 amended: for every NONEMPTY query string X, a row passes the
extended variant's `find(common_name=X)` iff X equals
(case-insensitively) ANY of its three common-name columns, and passes the
short variant's iff X equals its single `english_name_avilist` column.
An empty X is falsy and applies no common-name filter at all. -/
theorem claim_C8_amended (df : List Row) (X : String) (r : Row) (h : X ≠ "") :
    (r ∈ buildQuerySetExtended df (cnQuery X) ↔
      r ∈ df ∧ (eqLowerMask r.english_name_avilist X = true ∨
        eqLowerMask r.english_name_clements_v2024 X = true ∨
        eqLowerMask r.english_name_birdlife_v9 X = true)) ∧
    (r ∈ buildQuerySetShort df (cnQuery X) ↔
      r ∈ df ∧ eqLowerMask r.english_name_avilist X = true) := by
  have hne : (X == "") = false := by
    rw [beq_eq_false_iff_ne]
    exact h
  constructor
  · unfold buildQuerySetExtended cnQuery applyTruthy applyIfSome
    simp [hne, List.mem_filter, and_assoc, or_assoc]
  · unfold buildQuerySetShort cnQuery applyTruthy applyIfSome
    simp [hne, List.mem_filter]

/-- C8 witness: the amended statement at table `[rowCrow]`, the nonempty
query "Carrion Crow" and row `rowCrow`. -/
theorem claim_C8_witness :
    (rowCrow ∈ buildQuerySetExtended [rowCrow] (cnQuery "Carrion Crow") ↔
      rowCrow ∈ [rowCrow] ∧ (eqLowerMask rowCrow.english_name_avilist "Carrion Crow" = true ∨
        eqLowerMask rowCrow.english_name_clements_v2024 "Carrion Crow" = true ∨
        eqLowerMask rowCrow.english_name_birdlife_v9 "Carrion Crow" = true)) ∧
    (rowCrow ∈ buildQuerySetShort [rowCrow] (cnQuery "Carrion Crow") ↔
      rowCrow ∈ [rowCrow] ∧ eqLowerMask rowCrow.english_name_avilist "Carrion Crow" = true) :=
  claim_C8_amended [rowCrow] "Carrion Crow" rowCrow (by decide)

/-! ### Claim C6: canonicalization is idempotent -/

theorem char_toLower_idem (c : Char) : c.toLower.toLower = c.toLower := by
  unfold Char.toLower
  by_cases h : c.toNat ≥ 65 ∧ c.toNat ≤ 90
  · rw [if_pos h]
    have hv : (c.toNat + 32).isValidChar := Or.inl (by omega)
    have ht : (Char.ofNat (c.toNat + 32)).toNat = c.toNat + 32 := by
      rw [Char.ofNat, dif_pos hv]
      rfl
    rw [if_neg (by rw [ht]; omega)]
  · rw [if_neg h, if_neg h]

theorem alnum_not_ws {c : Char} (h : c.isAlphanum = true) : c.isWhitespace = false := by
  cases hw : c.isWhitespace
  · rfl
  · exfalso
    have hmem : c = ' ' ∨ c = '\t' ∨ c = '\r' ∨ c = '\n' := by
      simpa [Char.isWhitespace, or_assoc] using hw
    rcases hmem with h1 | h1 | h1 | h1 <;> subst h1 <;> exact absurd h (by decide)

/-- Every character the collapse pass emits is an underscore or an
alphanumeric character of the input. -/
theorem collapseGo_chars : ∀ (b : Bool) (l : List Char) (c : Char),
    c ∈ collapseGo b l → c = '_' ∨ (c.isAlphanum = true ∧ c ∈ l) := by
  intro b l
  induction l generalizing b with
  | nil => intro c hc; simp [collapseGo] at hc
  | cons a t ih =>
    intro c hc
    by_cases ha : a.isAlphanum = true
    · rw [collapseGo, if_pos ha] at hc
      rcases List.mem_cons.mp hc with h | h
      · exact Or.inr ⟨h ▸ ha, h ▸ List.mem_cons_self a t⟩
      · rcases ih false c h with h' | ⟨h1, h2⟩
        · exact Or.inl h'
        · exact Or.inr ⟨h1, List.mem_cons_of_mem _ h2⟩
    · rw [collapseGo, if_neg ha] at hc
      cases b with
      | true =>
        rw [if_pos rfl] at hc
        rcases ih true c hc with h' | ⟨h1, h2⟩
        · exact Or.inl h'
        · exact Or.inr ⟨h1, List.mem_cons_of_mem _ h2⟩
      | false =>
        rw [if_neg (by simp)] at hc
        rcases List.mem_cons.mp hc with h | h
        · exact Or.inl h
        · rcases ih true c h with h' | ⟨h1, h2⟩
          · exact Or.inl h'
          · exact Or.inr ⟨h1, List.mem_cons_of_mem _ h2⟩

/-- In run-continuation state the collapse pass starts with an
alphanumeric character, if it emits anything at all. -/
theorem collapseGo_true_head : ∀ (l : List Char) (c : Char),
    (collapseGo true l).head? = some c → c.isAlphanum = true := by
  intro l
  induction l with
  | nil => intro c h; simp [collapseGo] at h
  | cons a t ih =>
    intro c h
    by_cases ha : a.isAlphanum = true
    · rw [collapseGo, if_pos ha] at h
      simp only [List.head?_cons, Option.some.injEq] at h
      exact h ▸ ha
    · rw [collapseGo, if_neg ha, if_pos rfl] at h
      exact ih c h

/-- Adjacent characters in the collapse output are never both
non-alphanumeric. -/
def adjOK (a b : Char) : Prop := a.isAlphanum = true ∨ b.isAlphanum = true

theorem collapseGo_chain : ∀ (l : List Char) (b : Bool),
    List.Chain' adjOK (collapseGo b l) := by
  intro l
  induction l with
  | nil => intro b; simp [collapseGo]
  | cons a t ih =>
    intro b
    by_cases ha : a.isAlphanum = true
    · rw [collapseGo, if_pos ha, List.chain'_cons']
      exact ⟨fun y _ => Or.inl ha, ih false⟩
    · rw [collapseGo, if_neg ha]
      cases b with
      | true =>
        rw [if_pos rfl]
        exact ih true
      | false =>
        rw [if_neg (by simp), List.chain'_cons']
        refine ⟨?_, ih true⟩
        intro y hy
        exact Or.inr (collapseGo_true_head t y hy)

/-- The collapse pass fixes a string whose characters are alphanumeric or
underscore with no two adjacent non-alphanumeric characters. -/
theorem collapseGo_fixed : ∀ (l : List Char),
    (∀ c ∈ l, c.isAlphanum = true ∨ c = '_') → List.Chain' adjOK l →
    collapseGo false l = l := by
  intro l
  induction l with
  | nil => intro _ _; rfl
  | cons a t ih =>
    intro hmem hch
    have hch' := (List.chain'_cons'.mp hch).2
    have hmem' : ∀ c ∈ t, c.isAlphanum = true ∨ c = '_' :=
      fun c hc => hmem c (List.mem_cons_of_mem _ hc)
    rcases hmem a (List.mem_cons_self a t) with ha | ha
    · rw [collapseGo, if_pos ha]
      rw [ih hmem' hch']
    · subst ha
      rw [collapseGo, if_neg (by decide), if_neg (by simp)]
      cases t with
      | nil => rfl
      | cons d ds =>
        have hd : d.isAlphanum = true := by
          rcases (List.chain'_cons'.mp hch).1 d rfl with h | h
          · exact absurd h (by decide)
          · exact h
        rw [collapseGo, if_pos hd]
        have := ih hmem' hch'
        rw [collapseGo, if_pos hd] at this
        rw [this]

/-- Membership survives end-stripping. -/
theorem mem_of_mem_dropWhileEnds {p : Char → Bool} {x : List Char} {c : Char}
    (h : c ∈ x.dropWhile p) : c ∈ x := by
  rw [← List.takeWhile_append_dropWhile p x]
  exact List.mem_append_right _ h

theorem mem_of_mem_stripEnds {p : Char → Bool} {l : List Char} {c : Char}
    (h : c ∈ stripEnds p l) : c ∈ l := by
  unfold stripEnds at h
  rw [List.mem_reverse] at h
  have h2 := mem_of_mem_dropWhileEnds h
  rw [List.mem_reverse] at h2
  exact mem_of_mem_dropWhileEnds h2

/-- Stripping is the identity when no character matches. -/
theorem dropWhile_of_all_false {p : Char → Bool} {x : List Char}
    (h : ∀ c ∈ x, p c = false) : x.dropWhile p = x := by
  cases x with
  | nil => rfl
  | cons a t =>
    rw [List.dropWhile_cons]
    simp [h a (List.mem_cons_self a t)]

theorem stripEnds_of_all_false {p : Char → Bool} {l : List Char}
    (h : ∀ c ∈ l, p c = false) : stripEnds p l = l := by
  unfold stripEnds
  rw [dropWhile_of_all_false h]
  rw [dropWhile_of_all_false (fun c hc => h c (List.mem_reverse.mp hc))]
  exact List.reverse_reverse l

/-- A mapped list is unchanged when the function fixes every member. -/
theorem map_eq_self_of_fix {f : Char → Char} {l : List Char}
    (h : ∀ c ∈ l, f c = c) : l.map f = l := by
  induction l with
  | nil => rfl
  | cons a t ih =>
    rw [List.map_cons, h a (List.mem_cons_self a t),
      ih (fun c hc => h c (List.mem_cons_of_mem _ hc))]

/-- The head of a dropWhile result fails the predicate. -/
theorem dropWhile_head_fail {p : Char → Bool} {x : List Char} {c : Char}
    (h : (x.dropWhile p).head? = some c) : p c = false := by
  have := List.head?_dropWhile_not p x
  rw [h] at this
  exact this

theorem dropWhile_of_head_fail {p : Char → Bool} {x : List Char}
    (h : ∀ c, x.head? = some c → p c = false) : x.dropWhile p = x := by
  cases x with
  | nil => rfl
  | cons a t =>
    rw [List.dropWhile_cons]
    simp [h a rfl]

/-- End-stripping is idempotent. -/
theorem stripEnds_idem (p : Char → Bool) (l : List Char) :
    stripEnds p (stripEnds p l) = stripEnds p l := by
  set a := l.dropWhile p with ha
  set b := a.reverse.dropWhile p with hb
  have hstrip : stripEnds p l = b.reverse := rfl
  have hay : a = b.reverse ++ (a.reverse.takeWhile p).reverse := by
    rw [← List.reverse_append, List.takeWhile_append_dropWhile, List.reverse_reverse]
  have hyhead : ∀ c, b.reverse.head? = some c → p c = false := by
    intro c hc
    have hac : a.head? = some c := by
      rw [hay]
      cases hbr : b.reverse with
      | nil => rw [hbr] at hc; exact absurd hc (by simp)
      | cons x xs =>
        rw [hbr] at hc
        simp only [List.head?_cons, Option.some.injEq] at hc
        rw [List.cons_append, List.head?_cons, hc]
    exact dropWhile_head_fail (ha ▸ hac)
  have hbhead : ∀ c, b.head? = some c → p c = false := by
    intro c hc
    exact dropWhile_head_fail (hb ▸ hc)
  rw [hstrip]
  unfold stripEnds
  rw [dropWhile_of_head_fail hyhead, List.reverse_reverse,
    dropWhile_of_head_fail hbhead]

/-- Chains survive dropWhile (it keeps a contiguous tail). -/
theorem chain_dropWhile {p : Char → Bool} {R : Char → Char → Prop} {l : List Char}
    (h : List.Chain' R l) : List.Chain' R (l.dropWhile p) := by
  have h2 : List.Chain' R (l.takeWhile p ++ l.dropWhile p) := by
    rw [List.takeWhile_append_dropWhile]
    exact h
  exact (List.chain'_append.mp h2).2.1

theorem chain_reverse_adjOK {l : List Char} (h : List.Chain' adjOK l) :
    List.Chain' adjOK l.reverse := by
  rw [List.chain'_reverse]
  exact List.Chain'.imp (fun a b hab => Or.symm hab) h

theorem chain_stripEnds {p : Char → Bool} {l : List Char}
    (h : List.Chain' adjOK l) : List.Chain' adjOK (stripEnds p l) := by
  unfold stripEnds
  exact chain_reverse_adjOK (chain_dropWhile (chain_reverse_adjOK (chain_dropWhile h)))

/-- List-level idempotence of the column canonicalization. -/
theorem canonList_idem (l : List Char) : canonList (canonList l) = canonList l := by
  have hchars : ∀ c ∈ canonList l, c.isAlphanum = true ∨ c = '_' := by
    intro c hc
    have hc2 := mem_of_mem_stripEnds hc
    rcases collapseGo_chars false _ c hc2 with h | ⟨h1, _⟩
    · exact Or.inr h
    · exact Or.inl h1
  have hlower : ∀ c ∈ canonList l, c.toLower = c := by
    intro c hc
    have hc2 := mem_of_mem_stripEnds hc
    rcases collapseGo_chars false _ c hc2 with h | ⟨_, h2⟩
    · subst h; decide
    · rcases List.mem_map.mp h2 with ⟨d, _, hd⟩
      rw [← hd]
      exact char_toLower_idem d
  have hws : ∀ c ∈ canonList l, c.isWhitespace = false := by
    intro c hc
    rcases hchars c hc with h | h
    · exact alnum_not_ws h
    · subst h; decide
  have hchain : List.Chain' adjOK (canonList l) :=
    chain_stripEnds (collapseGo_chain _ false)
  have hstep : canonList (canonList l) =
      stripEnds (fun c => c == '_')
        (collapseGo false ((stripEnds Char.isWhitespace (canonList l)).map Char.toLower)) := rfl
  rw [hstep, stripEnds_of_all_false hws, map_eq_self_of_fix hlower,
    collapseGo_fixed _ hchars hchain]
  show stripEnds (fun c => c == '_')
      (stripEnds (fun c => c == '_')
        (collapseGo false ((stripEnds Char.isWhitespace l).map Char.toLower))) =
    stripEnds (fun c => c == '_')
      (collapseGo false ((stripEnds Char.isWhitespace l).map Char.toLower))
  exact stripEnds_idem _ _

/-- C6: column-name canonicalization (trim, lowercase, collapse each
maximal non-alphanumeric run to one underscore, strip surrounding
underscores) is idempotent — applying it to any already-canonicalized
name returns that name unchanged. -/
theorem claim_C6_canon_idempotent (s : String) : canonCol (canonCol s) = canonCol s :=
  congrArg String.mk (canonList_idem s.data)

end AviListPy
